import Mathlib

/-!
Verification of the marketplace/update subsystem of the skills-mcp-local
server.  The TypeScript sources are shallowly embedded: pure functions become
Lean functions, the filesystem becomes an explicit state (a map from paths to
directory nodes), remote I/O becomes environment parameters, and JavaScript
falsy checks are translated explicitly (null becomes Option.none, the empty
string is tested with String.isEmpty).
-/

/-- Skill metadata extracted from YAML frontmatter (types/index.ts). -/
structure SkillMetadata where
  name : String
  description : String
  license : Option String := none
  compatibility : Option String := none
  deriving DecidableEq, Repr

/-- Source-tracking sidecar record (types/index.ts, SkillSource). -/
structure SkillSource where
  marketplaceUrl : String
  skillPath : String
  installedAt : String
  commitHash : String
  branch : Option String := none
  deriving DecidableEq, Repr

/-- Update status returned by checkForUpdates (types/index.ts). -/
structure SkillUpdateStatus where
  hasUpdate : Bool
  localCommit : Option String := none
  remoteCommit : Option String := none
  error : Option String := none
  deriving DecidableEq, Repr

/-- A skill listed by a marketplace (types/index.ts, MarketplaceSkill). -/
structure MarketplaceSkill where
  metadata : SkillMetadata
  marketplaceUrl : String
  installCommand : String
  deriving DecidableEq, Repr

/-- A locally discovered skill (types/index.ts, InstalledSkill). -/
structure InstalledSkill where
  metadata : SkillMetadata
  location : String
  hasScripts : Bool
  hasReferences : Bool
  hasAssets : Bool
  isValid : Bool
  validationErrors : List String := []
  source : Option SkillSource := none
  updateStatus : Option SkillUpdateStatus := none
  deriving DecidableEq, Repr

/-- Outcome of the platform URL constructor (new URL): hostname and pathname
of a successfully parsed URL.  An unparsable string is Option.none. -/
structure UrlObj where
  hostname : String
  pathname : String
  deriving DecidableEq, Repr

/-- Parsed GitHub URL components (marketplace.ts, GitHubUrlParts). -/
structure GitHubUrlParts where
  owner : String
  repo : String
  branch : String
  path : String
  deriving DecidableEq, Repr

/-- Split a character list at every slash, keeping empty pieces, as the
JavaScript string split does. -/
def splitOnSlashAux : List Char → List Char → List String
  | [], acc => [String.mk acc.reverse]
  | c :: cs, acc =>
    if c = '/' then String.mk acc.reverse :: splitOnSlashAux cs []
    else splitOnSlashAux cs (c :: acc)

/-- pathname.split('/'): the slash-separated pieces of a string, including
empty ones. -/
def splitOnSlash (s : String) : List String :=
  splitOnSlashAux s.data []

/-- pathname.split('/').filter(Boolean): the non-empty path segments. -/
def pathSegments (pathname : String) : List String :=
  (splitOnSlash pathname).filter (fun s => !s.isEmpty)

/-- parseGitHubUrl (marketplace.ts lines 40-68).  The try/catch around
new URL is modelled by taking the Option result of URL parsing. -/
def parseGitHubUrl (u : Option UrlObj) : Option GitHubUrlParts :=
  match u with
  | none => none
  | some urlObj =>
    if urlObj.hostname ≠ "github.com" then none
    else
      let pathParts := pathSegments urlObj.pathname
      if pathParts.length < 4 ∨ pathParts.get? 2 ≠ some "tree" then none
      else
        match pathParts with
        | owner :: repo :: _ :: branch :: restPath =>
          some { owner := owner, repo := repo, branch := branch,
                 path := String.intercalate "/" restPath }
        | _ => none

/-- The URL Resolver contract in the words of the specification: unresolvable
exactly when the host is wrong, there are fewer than four non-empty segments,
or the third segment is not the literal marker; otherwise the coordinates,
with subpath the remaining segments joined by a slash. -/
def parseGitHubUrlSpec (u : Option UrlObj) : Option GitHubUrlParts :=
  match u with
  | none => none
  | some urlObj =>
    if urlObj.hostname = "github.com" then
      match pathSegments urlObj.pathname with
      | owner :: repo :: marker :: branch :: rest =>
        if marker = "tree" then
          some { owner := owner, repo := repo, branch := branch,
                 path := String.intercalate "/" rest }
        else none
      | _ => none
    else none

/-- checkForUpdates (marketplace.ts lines 319-341).  The remote fetch
(getLatestCommit) is passed in as its Option String outcome; the JavaScript
falsy test on the fetched string also catches the empty string. -/
def checkForUpdates (remoteCommit : Option String) (source : SkillSource) :
    SkillUpdateStatus :=
  match remoteCommit with
  | none =>
    { hasUpdate := false
      localCommit := some source.commitHash
      error := some "Could not fetch latest commit from marketplace" }
  | some rc =>
    if rc.isEmpty then
      { hasUpdate := false
        localCommit := some source.commitHash
        error := some "Could not fetch latest commit from marketplace" }
    else
      { hasUpdate := rc != source.commitHash
        localCommit := some source.commitHash
        remoteCommit := some rc }

/-- Insertion into a name-keyed map in iteration order: for each element, if
no element with the same name is present yet, append it; otherwise keep the
existing one.  Models the Map-based first-occurrence-wins loops of
fetchAllSkills (marketplace.ts lines 221-230) and discoverAllSkills
(skill-discovery.ts lines 157-166). -/
def insertByName {α : Type} (nameOf : α → String) (acc : List α) :
    List α → List α
  | [] => acc
  | x :: xs =>
    if acc.any (fun t => nameOf t == nameOf x) then
      insertByName nameOf acc xs
    else
      insertByName nameOf (acc ++ [x]) xs

/-- fetchAllSkills (marketplace.ts lines 214-233), parameterised by the
per-URL fetch outcome (fetchSkillsFromMarketplace for that URL). -/
def fetchAllSkills (fetch : String → List MarketplaceSkill)
    (marketplaceUrls : List String) : List MarketplaceSkill :=
  match marketplaceUrls with
  | [] => []
  | _ =>
    marketplaceUrls.foldl
      (fun acc url => insertByName (fun s => s.metadata.name) acc (fetch url)) []

/-- Cache duration in milliseconds, one hour (marketplace.ts line 22). -/
def CACHE_DURATION_MS : Nat := 60 * 60 * 1000

/-- A marketplace cache entry (marketplace.ts lines 27-30). -/
structure CacheEntry where
  skills : List MarketplaceSkill
  timestamp : Nat
  deriving DecidableEq, Repr

/-- Map.get on the cache, modelled on an association list. -/
def cacheGet (cache : List (String × CacheEntry)) (url : String) :
    Option CacheEntry :=
  match cache with
  | [] => none
  | (k, v) :: rest => if k == url then some v else cacheGet rest url

/-- Map.set on the cache: replace in place, or append a new key. -/
def cacheSet (cache : List (String × CacheEntry)) (url : String)
    (e : CacheEntry) : List (String × CacheEntry) :=
  match cache with
  | [] => [(url, e)]
  | (k, v) :: rest =>
    if k == url then (k, e) :: rest else (k, v) :: cacheSet rest url e

/-- A directory entry returned by the GitHub contents API. -/
structure DirEntry where
  name : String
  type : String
  deriving DecidableEq, Repr

/-- The remote side of the marketplace manager: the platform URL parser, the
directory-listing call, the raw-file call (both already collapsed to an empty
or absent result on transport errors, as fetchGitHubDirectory and
fetchGitHubRawFile do), and the frontmatter parser. -/
structure RemoteEnv where
  urlParse : String → Option UrlObj
  listDir : String → String → String → List DirEntry
  rawFile : String → String → String → String → Option String
  parseFrontmatter : String → Except String SkillMetadata

/-- The marketplace manager state: the module-level cache plus a counter of
remote directory-listing calls (one per fetchGitHubDirectory invocation). -/
structure MarketState where
  cache : List (String × CacheEntry)
  listCalls : Nat
  deriving DecidableEq, Repr

/-- Path of a SKILL.md inside the marketplace tree (marketplace.ts line 176,
including the truthiness test on the base path). -/
def skillMdPath (basePath dirName : String) : String :=
  if basePath.isEmpty then dirName ++ "/SKILL.md"
  else basePath ++ "/" ++ dirName ++ "/SKILL.md"

/-- The skill-assembly loop of fetchSkillsFromMarketplace (marketplace.ts
lines 169-192): list the directory, keep subdirectories, fetch each SKILL.md
(a falsy content string is skipped), parse, and collect the successes. -/
def buildSkills (env : RemoteEnv) (marketplaceUrl : String)
    (p : GitHubUrlParts) : List MarketplaceSkill :=
  let entries := env.listDir p.owner p.repo p.path
  let directories := entries.filter (fun e => e.type == "dir")
  directories.filterMap (fun dir =>
    match env.rawFile p.owner p.repo p.branch (skillMdPath p.path dir.name) with
    | none => none
    | some content =>
      if content.isEmpty then none
      else
        match env.parseFrontmatter content with
        | .error _ => none
        | .ok meta =>
          some { metadata := meta, marketplaceUrl := marketplaceUrl,
                 installCommand := "skills_install " ++ meta.name })

/-- The cache-miss path of fetchSkillsFromMarketplace (marketplace.ts lines
159-205): parse the URL (invalid URLs return an empty list without touching
the cache or the network), otherwise perform one directory-listing call,
assemble the skills and unconditionally refresh the cache entry. -/
def fetchSkillsFresh (env : RemoteEnv) (now : Nat) (st : MarketState)
    (marketplaceUrl : String) : List MarketplaceSkill × MarketState :=
  match parseGitHubUrl (env.urlParse marketplaceUrl) with
  | none => ([], st)
  | some parsed =>
    let skills := buildSkills env marketplaceUrl parsed
    (skills,
     { cache := cacheSet st.cache marketplaceUrl
         { skills := skills, timestamp := now }
       listCalls := st.listCalls + 1 })

/-- fetchSkillsFromMarketplace (marketplace.ts lines 151-206).  A cached
entry younger than the time-to-live is returned as is; otherwise the fresh
path runs.  Nat subtraction agrees with the JavaScript comparison because a
negative difference and a zero one are both below the TTL. -/
def fetchSkillsFromMarketplace (env : RemoteEnv) (now : Nat)
    (st : MarketState) (marketplaceUrl : String) :
    List MarketplaceSkill × MarketState :=
  match cacheGet st.cache marketplaceUrl with
  | some cached =>
    if now - cached.timestamp < CACHE_DURATION_MS then (cached.skills, st)
    else fetchSkillsFresh env now st marketplaceUrl
  | none => fetchSkillsFresh env now st marketplaceUrl

/-- What discovery sees of one candidate skill directory: its name, the
content of SKILL.md when that file exists and is readable, the three feature
subdirectories, and the source sidecar file as present on disk.  The sidecar
field records what a reader of the sidecar would get; discoverSkill is shown
never to consult it. -/
structure SkillDirOnDisk where
  dirName : String
  skillMd : Option String
  hasScripts : Bool
  hasReferences : Bool
  hasAssets : Bool
  sourceFile : Option SkillSource
  deriving DecidableEq, Repr

/-- discoverSkill (skill-discovery.ts lines 51-99): require SKILL.md, parse
its frontmatter, probe the subdirectories, and build an InstalledSkill; on a
parse failure build the fallback entry.  The source field of the result is
left at none in both branches, exactly as in the source, which never reads
the sidecar file. -/
def discoverSkill (parse : String → Except String SkillMetadata)
    (searchPath : String) (d : SkillDirOnDisk) : Option InstalledSkill :=
  match d.skillMd with
  | none => none
  | some content =>
    match parse content with
    | .ok meta =>
      some { metadata := meta
             location := searchPath ++ "/" ++ d.dirName
             hasScripts := d.hasScripts
             hasReferences := d.hasReferences
             hasAssets := d.hasAssets
             isValid := true }
    | .error e =>
      some { metadata := { name := d.dirName
                           description := "Invalid skill - parsing failed" }
             location := searchPath ++ "/" ++ d.dirName
             hasScripts := d.hasScripts
             hasReferences := d.hasReferences
             hasAssets := d.hasAssets
             isValid := false
             validationErrors := [if e.isEmpty then "Unknown parsing error" else e] }

/-- discoverSkillsInPath (skill-discovery.ts lines 107-144): discover each
subdirectory of a search path and keep the successes, in directory order. -/
def discoverSkillsInPath (parse : String → Except String SkillMetadata)
    (searchPath : String) (dirs : List SkillDirOnDisk) : List InstalledSkill :=
  dirs.filterMap (discoverSkill parse searchPath)

/-- discoverAllSkills (skill-discovery.ts lines 153-169): scan the search
paths in order and merge by name, first occurrence winning. -/
def discoverAllSkills (parse : String → Except String SkillMetadata)
    (searchPaths : List (String × List SkillDirOnDisk)) : List InstalledSkill :=
  searchPaths.foldl
    (fun acc p =>
      insertByName (fun s => s.metadata.name) acc
        (discoverSkillsInPath parse p.1 p.2)) []

/-- checkSkillUpdates (server/index.ts lines 18-51), with the remote fetch
injected.  Returns the skills (updateStatus filled in for trackable ones)
together with the number of remote update checks performed. -/
def checkSkillUpdates (remote : SkillSource → Option String)
    (skills : List InstalledSkill) : List InstalledSkill × Nat :=
  let trackableSkills := skills.filter (fun s => s.source.isSome)
  if trackableSkills.isEmpty then (skills, 0)
  else
    (skills.map (fun s =>
      match s.source with
      | some src =>
        { s with updateStatus := some (checkForUpdates (remote src) src) }
      | none => s),
     trackableSkills.length)

/-- The content of one bundle directory, opaquely: the checked-out payload,
the SKILL.md content if present, and the source sidecar file if present. -/
structure Bundle where
  payload : String
  skillMd : Option String
  sourceRecord : Option SkillSource
  deriving DecidableEq, Repr

/-- A directory-tree node of the executor filesystem: either an installed
bundle directory, or a clone staging area (git scaffolding plus, once the
sparse checkout ran and until the subtree is moved out, the bundle at the
requested subpath). -/
inductive Node where
  | bundle (b : Bundle)
  | cloneArea (inner : Option Bundle)
  deriving DecidableEq, Repr

/-- The executor filesystem: absolute path to directory node. -/
def FS := String → Option Node

/-- Create or replace the node at a path. -/
def fsSet (fs : FS) (p : String) (n : Node) : FS :=
  fun q => if q = p then some n else fs q

/-- fs.rm with recursive and force: remove the node at a path, absent paths
are left alone with no error. -/
def fsErase (fs : FS) (p : String) : FS :=
  fun q => if q = p then none else fs q

/-- createSource (skill-source.ts lines 83-101), with the timestamp injected;
the truthiness test on the branch argument also drops an empty string. -/
def createSource (marketplaceUrl skillPath commitHash : String)
    (branch : Option String) (installedAt : String) : SkillSource :=
  { marketplaceUrl := marketplaceUrl
    skillPath := skillPath
    installedAt := installedAt
    commitHash := commitHash
    branch := match branch with
      | some b => if b.isEmpty then none else some b
      | none => none }

/-- saveSource (skill-source.ts lines 22-38) as a filesystem action: write
the sidecar file into the bundle directory at the given location. -/
def saveSourceFS (fs : FS) (loc : String) (src : SkillSource) : FS :=
  match fs loc with
  | some (.bundle b) => fsSet fs loc (.bundle { b with sourceRecord := some src })
  | _ => fs

/-- The dirname of a path: everything before the final slash. -/
def parentOf (p : String) : String :=
  String.intercalate "/" (splitOnSlash p).dropLast

/-- Name of the unique temporary staging directory used by updateSkill
(update.ts line 70), sibling to the skill location. -/
def tempDirName (nowTag : Nat) (skill : InstalledSkill) : String :=
  parentOf skill.location ++ "/.temp-update-" ++ toString nowTag

/-- Name of the unique backup directory used by updateSkill (update.ts
line 71), sibling to the skill location. -/
def backupDirName (nowTag : Nat) (skill : InstalledSkill) : String :=
  parentOf skill.location ++ "/.backup-" ++ skill.metadata.name ++ "-" ++
    toString nowTag

/-- Result rows of the skills_update batch report (update.ts lines 24-38). -/
structure UpdateResult where
  name : String
  previousCommit : String
  newCommit : String
  deriving DecidableEq, Repr

/-- A skipped row of the batch report. -/
structure SkipResult where
  name : String
  reason : String
  deriving DecidableEq, Repr

/-- A failed row of the batch report. -/
structure FailResult where
  name : String
  error : String
  deriving DecidableEq, Repr

/-- Outcome of updateSkill: the success record or the error string of the
returned object (update.ts line 46). -/
inductive UpdateOutcome where
  | success (r : UpdateResult)
  | failure (error : String)
  deriving DecidableEq, Repr

/-- The collaborators of updateSkill: the platform URL parser, the
getLatestCommit outcome per source record, the outcome of the git
clone/sparse-checkout sequence per skill (the new HEAD commit and the
checked-out bundle subtree, or the error text of the failing command), an
injected failure for the final rename into place, the Date.now tag used for
the unique sibling directory names, and the timestamp createSource stamps. -/
structure UpdateEnv where
  urlParse : String → Option UrlObj
  remoteFetch : SkillSource → Option String
  cloneResult : InstalledSkill → Except String (String × Bundle)
  moveFail : InstalledSkill → Option String
  nowTag : Nat
  installedAt : String

/-- updateSkill (update.ts lines 43-142).  Control flow mirrors the source:
no source record, no update detected (the error field of the update status
is not consulted), unparsable URL, clone failure (caught by the outer catch,
which removes the staging directory), then backup rename, final move (whose
injected failure triggers the inner catch: remove remnants at the location,
rename the backup back, and let the outer catch remove the staging
directory), source-record write, and cleanup of staging and backup. -/
def updateSkill (env : UpdateEnv) (fs : FS) (skill : InstalledSkill) :
    UpdateOutcome × FS :=
  match skill.source with
  | none => (.failure "No source tracking information", fs)
  | some source =>
    let updateStatus := checkForUpdates (env.remoteFetch source) source
    if !updateStatus.hasUpdate then (.failure "Already up to date", fs)
    else
      match parseGitHubUrl (env.urlParse source.marketplaceUrl) with
      | none => (.failure "Invalid marketplace URL", fs)
      | some parsed =>
        let tempDir := tempDirName env.nowTag skill
        let backupDir := backupDirName env.nowTag skill
        match env.cloneResult skill with
        | .error msg => (.failure msg, fsErase fs tempDir)
        | .ok (newCommit, newBundle) =>
          let fs1 := fsSet fs tempDir (.cloneArea (some newBundle))
          match fs1 skill.location with
          | none =>
            (.failure "ENOENT: no such file or directory, rename",
             fsErase fs1 tempDir)
          | some current =>
            let fs2 := fsSet (fsErase fs1 skill.location) backupDir current
            match env.moveFail skill with
            | some msg =>
              let fs3 := fsErase fs2 skill.location
              let fs4 := match fs3 backupDir with
                | some b => fsSet (fsErase fs3 backupDir) skill.location b
                | none => fs3
              (.failure msg, fsErase fs4 tempDir)
            | none =>
              let fs3 := fsSet (fsSet fs2 skill.location (.bundle newBundle))
                tempDir (.cloneArea none)
              let newSource := createSource source.marketplaceUrl
                source.skillPath newCommit (some parsed.branch) env.installedAt
              let fs4 := saveSourceFS fs3 skill.location newSource
              let fs5 := fsErase (fsErase fs4 tempDir) backupDir
              (.success { name := skill.metadata.name
                          previousCommit := source.commitHash
                          newCommit := newCommit }, fs5)

/-- The response of the skills_update handler (update.ts lines 148-256):
either the skill-not-found error, the explicit no-trackable-skills message,
or the three-way batch report. -/
inductive UpdateResponse where
  | skillNotFound (name : String)
  | noTrackable (message : String)
  | batch (updated : List UpdateResult) (skipped : List SkipResult)
      (failed : List FailResult)
  deriving DecidableEq, Repr

/-- The message for a named skill without source tracking (update.ts
line 179). -/
def noTrackableOneMsg (name : String) : String :=
  "Skill \"" ++ name ++
    "\" was not installed via marketplace and cannot be updated automatically."

/-- The message when no trackable skill exists at all (update.ts line 180). -/
def noTrackableAllMsg : String :=
  "No skills with marketplace source tracking found. Only skills installed via skills_install can be updated."

/-- The per-skill loop of handleUpdate (update.ts lines 195-205): run
updateSkill on each trackable skill in order, threading the filesystem, and
partition the outcomes into updated, skipped (exactly the error string
matching the up-to-date sentinel) and failed. -/
def runUpdates (env : UpdateEnv) (fs : FS) :
    List InstalledSkill →
      (List UpdateResult × List SkipResult × List FailResult) × FS
  | [] => (([], [], []), fs)
  | skill :: rest =>
    match updateSkill env fs skill with
    | (.success r, fs1) =>
      let ((u, s, f), fs2) := runUpdates env fs1 rest
      ((r :: u, s, f), fs2)
    | (.failure e, fs1) =>
      let ((u, s, f), fs2) := runUpdates env fs1 rest
      if e = "Already up to date" then
        ((u, { name := skill.metadata.name, reason := e } :: s, f), fs2)
      else
        ((u, s, { name := skill.metadata.name
                  error := if e.isEmpty then "Unknown error" else e } :: f), fs2)

/-- The post-selection part of handleUpdate (update.ts lines 174-255):
filter the checked skills to the ones with source tracking, return the
explicit message when none is trackable, and otherwise the batch report. -/
def handleUpdateBatch (env : UpdateEnv) (skillsToCheck : List InstalledSkill)
    (requestedName : Option String) (fs : FS) : UpdateResponse × FS :=
  let trackableSkills := skillsToCheck.filter (fun s => s.source.isSome)
  if trackableSkills.isEmpty then
    (.noTrackable (match requestedName with
      | some name => noTrackableOneMsg name
      | none => noTrackableAllMsg), fs)
  else
    let (parts, fs1) := runUpdates env fs trackableSkills
    (.batch parts.1 parts.2.1 parts.2.2, fs1)

/-- handleUpdate (update.ts lines 148-256): select the requested skill (or
all installed skills), then run the batch. -/
def handleUpdate (env : UpdateEnv) (installedSkills : List InstalledSkill)
    (requestedName : Option String) (fs : FS) : UpdateResponse × FS :=
  match requestedName with
  | some name =>
    match installedSkills.find? (fun s => s.metadata.name == name) with
    | none => (.skillNotFound name, fs)
    | some skill => handleUpdateBatch env [skill] (some name) fs
  | none => handleUpdateBatch env installedSkills none fs

/-- The response of the skills_install handler (update.ts install section,
lines 437-570): the already-exists error, the not-in-marketplace error, the
unparsable-URL error, the clone/validation failure (isError results), the
installed-with-warning result, and the success result. -/
inductive InstallResponse where
  | alreadyExists (dir : String)
  | notFoundInMarketplace (name : String)
  | badUrl (url : String)
  | installFailed (name msg : String)
  | installedWithWarning (dir msg : String)
  | installed (name description dir : String)
  deriving DecidableEq, Repr

/-- The collaborators of handleInstall: the merged marketplace catalog (the
fetchAllSkills result over the configured URLs), the platform URL parser,
the outcome of the git clone/sparse-checkout sequence for the requested
skill (the checked-out bundle or the error text), the frontmatter parser
used for post-install validation, the install root, and the Date.now tag of
the temporary staging directory. -/
structure InstallEnv where
  allSkills : List MarketplaceSkill
  urlParse : String → Option UrlObj
  cloneResult : String → Except String Bundle
  parseFrontmatter : String → Except String SkillMetadata
  installPath : String
  nowTag : Nat

/-- handleInstall (update.ts install section, lines 437-570).  Preflight: an
existing target directory fails immediately with no filesystem change.  Then
marketplace lookup, URL parse, clone into the staging directory, move of the
checked-out subtree to the final location, staging cleanup, and post-install
validation of SKILL.md (an unreadable SKILL.md throws, and the catch removes
both the staging directory and the freshly installed target).  No source
record is written on any path. -/
def handleInstall (env : InstallEnv) (fs : FS) (skillName : String) :
    InstallResponse × FS :=
  let skillDir := env.installPath ++ "/" ++ skillName
  match fs skillDir with
  | some _ => (.alreadyExists skillDir, fs)
  | none =>
    match env.allSkills.find? (fun s => s.metadata.name == skillName) with
    | none => (.notFoundInMarketplace skillName, fs)
    | some skill =>
      match parseGitHubUrl (env.urlParse skill.marketplaceUrl) with
      | none => (.badUrl skill.marketplaceUrl, fs)
      | some _ =>
        let tempDir := env.installPath ++ "/.temp-" ++ toString env.nowTag
        match env.cloneResult skillName with
        | .error msg =>
          (.installFailed skillName msg,
           fsErase (fsErase fs tempDir) skillDir)
        | .ok b =>
          let fs1 := fsSet fs skillDir (.bundle b)
          match b.skillMd with
          | none =>
            (.installFailed skillName
              "ENOENT: no such file or directory, open SKILL.md",
             fsErase (fsErase fs1 tempDir) skillDir)
          | some content =>
            match env.parseFrontmatter content with
            | .error e => (.installedWithWarning skillDir e, fs1)
            | .ok meta => (.installed meta.name meta.description skillDir, fs1)

lemma cacheGet_cacheSet (cache : List (String × CacheEntry)) (url : String)
    (e : CacheEntry) : cacheGet (cacheSet cache url e) url = some e := by
  induction cache with
  | nil => simp [cacheSet, cacheGet]
  | cons kv rest ih =>
    obtain ⟨k, v⟩ := kv
    by_cases h : k == url
    · simp [cacheSet, cacheGet, h]
    · simp [cacheSet, cacheGet, h, ih]

lemma insertByName_mem {α : Type} (nameOf : α → String) :
    ∀ (xs acc : List α) (a : α),
      a ∈ insertByName nameOf acc xs → a ∈ acc ∨ a ∈ xs := by
  intro xs
  induction xs with
  | nil => intro acc a ha; exact Or.inl ha
  | cons x xs ih =>
    intro acc a ha
    rw [insertByName] at ha
    split at ha
    · rcases ih acc a ha with h | h
      · exact Or.inl h
      · exact Or.inr (List.mem_cons_of_mem _ h)
    · rcases ih (acc ++ [x]) a ha with h | h
      · rcases List.mem_append.mp h with h | h
        · exact Or.inl h
        · simp only [List.mem_singleton] at h
          subst h
          exact Or.inr (List.mem_cons_self _ _)
      · exact Or.inr (List.mem_cons_of_mem _ h)

lemma discoverSkill_source_none
    (parse : String → Except String SkillMetadata) (searchPath : String)
    (d : SkillDirOnDisk) (s : InstalledSkill)
    (h : discoverSkill parse searchPath d = some s) : s.source = none := by
  unfold discoverSkill at h
  split at h
  · cases h
  · split at h
    · cases h; rfl
    · cases h; rfl

lemma discoverAllSkills_source_none
    (parse : String → Except String SkillMetadata)
    (searchPaths : List (String × List SkillDirOnDisk)) :
    ∀ s ∈ discoverAllSkills parse searchPaths, s.source = none := by
  unfold discoverAllSkills
  suffices h : ∀ (ps : List (String × List SkillDirOnDisk))
      (acc : List InstalledSkill), (∀ s ∈ acc, s.source = none) →
      ∀ s ∈ ps.foldl (fun acc p =>
        insertByName (fun s => s.metadata.name) acc
          (discoverSkillsInPath parse p.1 p.2)) acc, s.source = none by
    exact h searchPaths [] (by intro s hs; cases hs)
  intro ps
  induction ps with
  | nil => intro acc hacc s hs; exact hacc s hs
  | cons p ps ih =>
    intro acc hacc s hs
    refine ih _ ?_ s hs
    intro t ht
    rcases insertByName_mem _ _ _ _ ht with h | h
    · exact hacc t h
    · rcases List.mem_filterMap.mp h with ⟨d, _, hd⟩
      exact discoverSkill_source_none parse p.1 d t hd

lemma insertByName_filter_keep {α : Type} (nameOf : α → String) (x : String) :
    ∀ (xs acc : List α), (∃ t ∈ acc, nameOf t = x) →
      (insertByName nameOf acc xs).filter (fun s => nameOf s == x) =
        acc.filter (fun s => nameOf s == x) := by
  intro xs
  induction xs with
  | nil => intro acc _; rfl
  | cons y ys ih =>
    intro acc hacc
    rw [insertByName]
    split
    · exact ih acc hacc
    · rename_i hany
      have hy : nameOf y ≠ x := by
        intro hxy
        rcases hacc with ⟨t, ht, htx⟩
        exact hany (List.any_eq_true.mpr ⟨t, ht, by simp [htx, hxy]⟩)
      have : (acc ++ [y]).filter (fun s => nameOf s == x) =
          acc.filter (fun s => nameOf s == x) := by
        rw [List.filter_append]
        simp [hy]
      rw [ih (acc ++ [y]) ⟨hacc.choose, List.mem_append_left _ hacc.choose_spec.1,
        hacc.choose_spec.2⟩, this]

lemma insertByName_filter_first {α : Type} (nameOf : α → String) (x : String) :
    ∀ (xs acc : List α) (a : α) (rest : List α),
      (∀ t ∈ acc, nameOf t ≠ x) →
      xs.filter (fun s => nameOf s == x) = a :: rest →
      (insertByName nameOf acc xs).filter (fun s => nameOf s == x) = [a] := by
  intro xs
  induction xs with
  | nil => intro acc a rest _ hx; cases hx
  | cons y ys ih =>
    intro acc a rest hacc hx
    have haccf : acc.filter (fun s => nameOf s == x) = [] :=
      List.filter_eq_nil_iff.mpr (by intro t ht; simp [hacc t ht])
    rw [insertByName]
    by_cases hy : nameOf y = x
    · have hya : y = a ∧ ys.filter (fun s => nameOf s == x) = rest := by
        rw [List.filter_cons_of_pos (by simp [hy])] at hx
        exact ⟨(List.cons.injEq _ _ _ _).mp hx |>.1,
          (List.cons.injEq _ _ _ _).mp hx |>.2⟩
      have hany : acc.any (fun t => nameOf t == nameOf y) = false := by
        rw [List.any_eq_false]
        intro t ht
        simp [hy, hacc t ht]
      rw [if_neg (by simp [hany])]
      have hmem : ∃ t ∈ acc ++ [y], nameOf t = x :=
        ⟨y, List.mem_append_right _ (List.mem_singleton.mpr rfl), hy⟩
      have hax : nameOf a = x := hya.1 ▸ hy
      rw [insertByName_filter_keep nameOf x ys (acc ++ [y]) hmem,
        List.filter_append, haccf, hya.1]
      simp [hax]
    · have hx' : ys.filter (fun s => nameOf s == x) = a :: rest := by
        rw [List.filter_cons_of_neg (by simp [hy])] at hx
        exact hx
      split
      · exact ih acc a rest hacc hx'
      · refine ih (acc ++ [y]) a rest ?_ hx'
        intro t ht
        rcases List.mem_append.mp ht with h | h
        · exact hacc t h
        · rw [List.mem_singleton.mp h]; exact hy

lemma updateSkill_success_name (env : UpdateEnv) (fs : FS)
    (skill : InstalledSkill) (r : UpdateResult) (fs1 : FS)
    (h : updateSkill env fs skill = (.success r, fs1)) :
    r.name = skill.metadata.name := by
  unfold updateSkill at h
  rcases hs : skill.source with _ | source
  · simp only [hs] at h
    exact absurd (congrArg Prod.fst h) (by simp)
  · simp only [hs] at h
    by_cases hu : (checkForUpdates (env.remoteFetch source) source).hasUpdate
    · rw [if_neg (by simp [hu])] at h
      rcases hp : parseGitHubUrl (env.urlParse source.marketplaceUrl) with _ | parsed
      · simp only [hp] at h
        exact absurd (congrArg Prod.fst h) (by simp)
      · simp only [hp] at h
        rcases hc : env.cloneResult skill with msg | pair
        · simp only [hc] at h
          exact absurd (congrArg Prod.fst h) (by simp)
        · obtain ⟨newCommit, newBundle⟩ := pair
          simp only [hc] at h
          rcases hl : fsSet fs (tempDirName env.nowTag skill)
              (Node.cloneArea (some newBundle)) skill.location with _ | current
          · simp only [hl] at h
            exact absurd (congrArg Prod.fst h) (by simp)
          · simp only [hl] at h
            rcases hm : env.moveFail skill with _ | msg
            · simp only [hm] at h
              cases h
              rfl
            · simp only [hm] at h
              exact absurd (congrArg Prod.fst h) (by simp)
    · rw [if_pos (by simp [hu])] at h
      exact absurd (congrArg Prod.fst h) (by simp)

lemma runUpdates_names (env : UpdateEnv) :
    ∀ (skills : List InstalledSkill) (fs : FS) (n : String),
      (n ∈ ((runUpdates env fs skills).1.1.map UpdateResult.name) ∨
       n ∈ ((runUpdates env fs skills).1.2.1.map SkipResult.name) ∨
       n ∈ ((runUpdates env fs skills).1.2.2.map FailResult.name)) →
      ∃ s ∈ skills, s.metadata.name = n := by
  intro skills
  induction skills with
  | nil => intro fs n h; simp [runUpdates] at h
  | cons skill rest ih =>
    intro fs n h
    rw [runUpdates] at h
    rcases hcall : updateSkill env fs skill with ⟨o, fsx⟩
    rw [hcall] at h
    rcases hrec : runUpdates env fsx rest with ⟨⟨u, s, f⟩, fs2⟩
    cases o with
    | success r =>
      dsimp only at h
      rw [hrec] at h
      dsimp only at h
      simp only [List.map_cons, List.mem_cons] at h
      rcases h with (h | h) | h | h
      · exact ⟨skill, List.mem_cons_self _ _,
          (updateSkill_success_name env fs skill r fsx hcall) ▸ h.symm⟩
      · rcases ih fsx n (Or.inl (by rw [hrec]; exact h)) with ⟨t, ht, htn⟩
        exact ⟨t, List.mem_cons_of_mem _ ht, htn⟩
      · rcases ih fsx n (Or.inr (Or.inl (by rw [hrec]; exact h))) with ⟨t, ht, htn⟩
        exact ⟨t, List.mem_cons_of_mem _ ht, htn⟩
      · rcases ih fsx n (Or.inr (Or.inr (by rw [hrec]; exact h))) with ⟨t, ht, htn⟩
        exact ⟨t, List.mem_cons_of_mem _ ht, htn⟩
    | failure e =>
      dsimp only at h
      rw [hrec] at h
      dsimp only at h
      by_cases he : e = "Already up to date"
      · rw [if_pos he] at h
        simp only [List.map_cons, List.mem_cons] at h
        rcases h with h | (h | h) | h
        · rcases ih fsx n (Or.inl (by rw [hrec]; exact h)) with ⟨t, ht, htn⟩
          exact ⟨t, List.mem_cons_of_mem _ ht, htn⟩
        · exact ⟨skill, List.mem_cons_self _ _, h.symm⟩
        · rcases ih fsx n (Or.inr (Or.inl (by rw [hrec]; exact h))) with ⟨t, ht, htn⟩
          exact ⟨t, List.mem_cons_of_mem _ ht, htn⟩
        · rcases ih fsx n (Or.inr (Or.inr (by rw [hrec]; exact h))) with ⟨t, ht, htn⟩
          exact ⟨t, List.mem_cons_of_mem _ ht, htn⟩
      · rw [if_neg he] at h
        simp only [List.map_cons, List.mem_cons] at h
        rcases h with h | h | (h | h)
        · rcases ih fsx n (Or.inl (by rw [hrec]; exact h)) with ⟨t, ht, htn⟩
          exact ⟨t, List.mem_cons_of_mem _ ht, htn⟩
        · rcases ih fsx n (Or.inr (Or.inl (by rw [hrec]; exact h))) with ⟨t, ht, htn⟩
          exact ⟨t, List.mem_cons_of_mem _ ht, htn⟩
        · exact ⟨skill, List.mem_cons_self _ _, h.symm⟩
        · rcases ih fsx n (Or.inr (Or.inr (by rw [hrec]; exact h))) with ⟨t, ht, htn⟩
          exact ⟨t, List.mem_cons_of_mem _ ht, htn⟩

/-- C7: for every input (every outcome of platform URL parsing), the URL
Resolver parseGitHubUrl is total and never throws, returns the unresolvable
result exactly when the host is not github.com, the path has fewer than four
non-empty segments, or the third segment is not the literal tree marker, and
otherwise returns the owner, repository, branch and the remaining segments
joined by a slash (possibly empty).  Stated as pointwise equality with the
specification-worded resolver. -/
theorem parseGitHubUrl_matches_spec (u : Option UrlObj) :
    parseGitHubUrl u = parseGitHubUrlSpec u := by
  cases u with
  | none => rfl
  | some x =>
    unfold parseGitHubUrl parseGitHubUrlSpec
    by_cases hh : x.hostname = "github.com"
    · rcases hs : pathSegments x.pathname with _ | ⟨a, _ | ⟨b, _ | ⟨c, _ | ⟨d, rest⟩⟩⟩⟩ <;>
        simp only [hh, hs, ite_true, ite_false, if_neg, if_pos, ne_eq,
          not_true_eq_false, List.length_nil, List.length_cons, List.get?] <;>
        norm_num
      by_cases hc : c = "tree"
      · simp [hc]
      · simp [hc]
    · simp [hh]

/-- A concrete source record used by the example theorems. -/
def exSource : SkillSource :=
  { marketplaceUrl := "https://github.com/anthropics/skills/tree/main/skills"
    skillPath := "pdf-helper"
    installedAt := "2025-01-01T00:00:00.000Z"
    commitHash := "abc123" }

/-- C5 counterexample: when the remote query yields the empty string, the
fetched revision differs byte-for-byte from the stored one, yet
checkForUpdates does not report an update; the JavaScript falsy test treats
the empty fetched string like a failed fetch. -/
theorem checkForUpdates_empty_remote_cex :
    (checkForUpdates (some "") exSource).hasUpdate = false ∧
    ("" : String) ≠ exSource.commitHash ∧
    (checkForUpdates (some "") exSource).error =
      some "Could not fetch latest commit from marketplace" := by
  refine ⟨rfl, by decide, rfl⟩

/-- C5 (amended): checkForUpdates reports an update exactly when the remote
query yields a non-empty revision string that differs byte-for-byte from the
stored one (an empty fetched string is treated like a fetch failure); when
the fetch fails it reports no update together with a non-empty error string,
and never reports an update on fetch failure. -/
theorem checkForUpdates_spec (remote : Option String) (src : SkillSource) :
    ((checkForUpdates remote src).hasUpdate = true ↔
      ∃ rc, remote = some rc ∧ rc.isEmpty = false ∧ rc ≠ src.commitHash) ∧
    (remote = none →
      (checkForUpdates remote src).hasUpdate = false ∧
      ∃ e, (checkForUpdates remote src).error = some e ∧ e ≠ "") := by
  constructor
  · cases remote with
    | none => simp [checkForUpdates]
    | some rc =>
      by_cases h : rc.isEmpty <;>
        simp [checkForUpdates, h, bne_iff_ne]
  · rintro rfl
    exact ⟨rfl, "Could not fetch latest commit from marketplace", rfl, by decide⟩

/-- C5 witness: the amended theorem applied at a failed fetch over a
concrete source record. -/
theorem checkForUpdates_spec_witness :
    (checkForUpdates none exSource).hasUpdate = false ∧
    ∃ e, (checkForUpdates none exSource).error = some e ∧ e ≠ "" :=
  (checkForUpdates_spec none exSource).2 rfl

/-- C10: when catalogs A and B both contain an entry named x, fetchAllSkills
over the configured order A then B yields exactly one entry named x, namely
the one from A (its first occurrence): earlier-configured catalogs win name
collisions. -/
theorem fetchAllSkills_first_occurrence_wins
    (fetch : String → List MarketplaceSkill) (urlA urlB x : String)
    (a : MarketplaceSkill) (restA : List MarketplaceSkill)
    (ha : (fetch urlA).filter (fun s => s.metadata.name == x) = a :: restA)
    (hb : ∃ b ∈ fetch urlB, b.metadata.name = x) :
    (fetchAllSkills fetch [urlA, urlB]).filter
      (fun s => s.metadata.name == x) = [a] := by
  obtain ⟨b, hbmem, hbx⟩ := hb
  have hstep : fetchAllSkills fetch [urlA, urlB] =
      insertByName (fun s => s.metadata.name)
        (insertByName (fun s => s.metadata.name) [] (fetch urlA))
        (fetch urlB) := rfl
  have hA : (insertByName (fun s => s.metadata.name) [] (fetch urlA)).filter
      (fun s => s.metadata.name == x) = [a] :=
    insertByName_filter_first (fun s => s.metadata.name) x (fetch urlA) [] a
      restA (by intro t ht; cases ht) ha
  have hamem : a ∈ insertByName (fun s => s.metadata.name) [] (fetch urlA) := by
    have : a ∈ (insertByName (fun s => s.metadata.name) [] (fetch urlA)).filter
        (fun s => s.metadata.name == x) := by
      rw [hA]; exact List.mem_singleton.mpr rfl
    exact (List.mem_filter.mp this).1
  have hax : a.metadata.name = x := by
    have : a ∈ (fetch urlA).filter (fun s => s.metadata.name == x) := by
      rw [ha]; exact List.mem_cons_self _ _
    simpa using (List.mem_filter.mp this).2
  rw [hstep,
    insertByName_filter_keep (fun s => s.metadata.name) x (fetch urlB) _
      ⟨a, hamem, hax⟩, hA]

/-- A second concrete catalog entry named pdf-helper, used as the colliding
entry of catalog B in the merge witness. -/
def exEntryA : MarketplaceSkill :=
  { metadata := { name := "pdf-helper", description := "Extract text from PDFs" }
    marketplaceUrl := "https://github.com/anthropics/skills/tree/main/skills"
    installCommand := "skills_install pdf-helper" }

/-- The colliding catalog-B version of the same name. -/
def exEntryB : MarketplaceSkill :=
  { metadata := { name := "pdf-helper", description := "Other vendor variant" }
    marketplaceUrl := "https://github.com/other/skills/tree/main/skills"
    installCommand := "skills_install pdf-helper" }

/-- A concrete two-catalog fetch outcome for the merge witness. -/
def exFetch : String → List MarketplaceSkill := fun url =>
  if url = "https://github.com/anthropics/skills/tree/main/skills" then [exEntryA]
  else [exEntryB]

/-- C10 witness: the merge theorem applied to two concrete catalogs that
both list pdf-helper; the first-configured version survives. -/
theorem fetchAllSkills_first_occurrence_wins_witness :
    (fetchAllSkills exFetch
      ["https://github.com/anthropics/skills/tree/main/skills",
       "https://github.com/other/skills/tree/main/skills"]).filter
      (fun s => s.metadata.name == "pdf-helper") = [exEntryA] :=
  fetchAllSkills_first_occurrence_wins exFetch _ _ "pdf-helper" exEntryA []
    (by decide) ⟨exEntryB, by decide, rfl⟩

/-- C9: cache behaviour of the catalog fetch.  A cached entry younger than
the time-to-live is returned unchanged with no remote call and no state
change; an entry at or past the time-to-live is treated exactly like an
absent one; on a miss or an expired entry with a resolvable URL the fetch
performs exactly one new remote listing call and unconditionally refreshes
the cache entry with the fresh result and timestamp (also when the result
set is empty), after which a second fetch within the time-to-live window
returns the identical result with no further remote call and no state
change. -/
theorem marketplace_cache_spec (env : RemoteEnv) (st : MarketState)
    (url : String) (now t1 : Nat) :
    (∀ e, cacheGet st.cache url = some e →
      now - e.timestamp < CACHE_DURATION_MS →
      fetchSkillsFromMarketplace env now st url = (e.skills, st)) ∧
    (∀ e, cacheGet st.cache url = some e →
      CACHE_DURATION_MS ≤ now - e.timestamp →
      fetchSkillsFromMarketplace env now st url =
        fetchSkillsFresh env now st url) ∧
    (∀ p, parseGitHubUrl (env.urlParse url) = some p →
      (cacheGet st.cache url = none ∨
       ∃ e, cacheGet st.cache url = some e ∧
         CACHE_DURATION_MS ≤ now - e.timestamp) →
      (fetchSkillsFromMarketplace env now st url).2.listCalls =
        st.listCalls + 1 ∧
      cacheGet (fetchSkillsFromMarketplace env now st url).2.cache url =
        some { skills := (fetchSkillsFromMarketplace env now st url).1
               timestamp := now } ∧
      (t1 - now < CACHE_DURATION_MS →
        fetchSkillsFromMarketplace env t1
          (fetchSkillsFromMarketplace env now st url).2 url =
          ((fetchSkillsFromMarketplace env now st url).1,
           (fetchSkillsFromMarketplace env now st url).2))) := by
  refine ⟨?_, ?_, ?_⟩
  · intro e he hlt
    unfold fetchSkillsFromMarketplace
    simp only [he]
    rw [if_pos hlt]
  · intro e he hge
    unfold fetchSkillsFromMarketplace
    simp only [he]
    rw [if_neg (Nat.not_lt.mpr hge)]
  · intro p hp hmiss
    have hfresh : fetchSkillsFromMarketplace env now st url =
        fetchSkillsFresh env now st url := by
      unfold fetchSkillsFromMarketplace
      rcases hmiss with h | ⟨e, he, hge⟩
      · simp only [h]
      · simp only [he]
        rw [if_neg (Nat.not_lt.mpr hge)]
    have hval : fetchSkillsFresh env now st url =
        (buildSkills env url p,
         { cache := cacheSet st.cache url
             { skills := buildSkills env url p, timestamp := now }
           listCalls := st.listCalls + 1 }) := by
      unfold fetchSkillsFresh
      rw [hp]
    rw [hfresh, hval]
    refine ⟨rfl, ?_, ?_⟩
    · exact cacheGet_cacheSet st.cache url _
    · intro ht1
      unfold fetchSkillsFromMarketplace
      simp only [cacheGet_cacheSet st.cache url]
      rw [if_pos (by simpa using ht1)]

/-- The parsed form of the example marketplace URL. -/
def exUrlObj : UrlObj :=
  { hostname := "github.com", pathname := "/anthropics/skills/tree/main/skills" }

/-- A concrete remote environment whose listing is empty, exercising the
empty-result caching clause. -/
def exRemoteEnv : RemoteEnv :=
  { urlParse := fun _ => some exUrlObj
    listDir := fun _ _ _ => []
    rawFile := fun _ _ _ _ => none
    parseFrontmatter := fun _ => .error "unreachable" }

/-- C9 witness: the cache theorem applied to a concrete environment with an
empty catalog, starting from an empty cache at time 1000, with a second call
at time 2000: one listing call happens, the empty result is cached with the
fetch timestamp, and the second call is served from the cache unchanged. -/
theorem marketplace_cache_spec_witness :
    (fetchSkillsFromMarketplace exRemoteEnv 1000
      { cache := [], listCalls := 0 } "m").2.listCalls = 0 + 1 ∧
    cacheGet (fetchSkillsFromMarketplace exRemoteEnv 1000
      { cache := [], listCalls := 0 } "m").2.cache "m" =
      some { skills := (fetchSkillsFromMarketplace exRemoteEnv 1000
               { cache := [], listCalls := 0 } "m").1
             timestamp := 1000 } ∧
    (2000 - 1000 < CACHE_DURATION_MS →
      fetchSkillsFromMarketplace exRemoteEnv 2000
        (fetchSkillsFromMarketplace exRemoteEnv 1000
          { cache := [], listCalls := 0 } "m").2 "m" =
        ((fetchSkillsFromMarketplace exRemoteEnv 1000
            { cache := [], listCalls := 0 } "m").1,
         (fetchSkillsFromMarketplace exRemoteEnv 1000
            { cache := [], listCalls := 0 } "m").2)) :=
  (marketplace_cache_spec exRemoteEnv { cache := [], listCalls := 0 }
      "m" 1000 2000).2.2
    { owner := "anthropics", repo := "skills", branch := "main", path := "skills" }
    (by decide) (Or.inl rfl)

/-- C2: every skill returned by discovery has an unset source field (the
sidecar file on disk is never read), hence the trackable filter over
discovered skills is always empty, the skills_update handler never produces
a batch report (and leaves the filesystem untouched), and the startup update
check performs zero remote update checks. -/
theorem discovery_source_always_none
    (parse : String → Except String SkillMetadata)
    (searchPaths : List (String × List SkillDirOnDisk)) :
    (∀ s ∈ discoverAllSkills parse searchPaths, s.source = none) ∧
    (discoverAllSkills parse searchPaths).filter
      (fun s => s.source.isSome) = [] ∧
    (∀ (env : UpdateEnv) (fs : FS) (requestedName : Option String),
      (handleUpdate env (discoverAllSkills parse searchPaths)
        requestedName fs).2 = fs ∧
      ∀ u sk f, (handleUpdate env (discoverAllSkills parse searchPaths)
        requestedName fs).1 ≠ .batch u sk f) ∧
    (∀ remote, checkSkillUpdates remote (discoverAllSkills parse searchPaths) =
      (discoverAllSkills parse searchPaths, 0)) := by
  have hnone := discoverAllSkills_source_none parse searchPaths
  have hfilter : (discoverAllSkills parse searchPaths).filter
      (fun s => s.source.isSome) = [] :=
    List.filter_eq_nil_iff.mpr (by intro s hs; simp [hnone s hs])
  refine ⟨hnone, hfilter, ?_, ?_⟩
  · intro env fs requestedName
    cases requestedName with
    | none =>
      have h1 : handleUpdate env (discoverAllSkills parse searchPaths) none fs
          = (.noTrackable noTrackableAllMsg, fs) := by
        unfold handleUpdate handleUpdateBatch
        simp [hfilter]
      rw [h1]
      exact ⟨rfl, by intro u sk f h; cases h⟩
    | some name =>
      cases hf : (discoverAllSkills parse searchPaths).find?
          (fun s => s.metadata.name == name) with
      | none =>
        have h1 : handleUpdate env (discoverAllSkills parse searchPaths)
            (some name) fs = (.skillNotFound name, fs) := by
          unfold handleUpdate
          simp only [hf]
        rw [h1]
        exact ⟨rfl, by intro u sk f h; cases h⟩
      | some skill =>
        have hsrc : skill.source = none :=
          hnone skill (List.mem_of_find?_eq_some hf)
        have h1 : handleUpdate env (discoverAllSkills parse searchPaths)
            (some name) fs = (.noTrackable (noTrackableOneMsg name), fs) := by
          unfold handleUpdate handleUpdateBatch
          simp [hf, hsrc]
        rw [h1]
        exact ⟨rfl, by intro u sk f h; cases h⟩
  · intro remote
    unfold checkSkillUpdates
    simp [hfilter]

/-- The sidecar record present on disk in the discovery witness: discovery
ignores it. -/
def c2Sidecar : SkillSource :=
  { marketplaceUrl := "https://github.com/anthropics/skills/tree/main/skills"
    skillPath := "writing-style"
    installedAt := "2025-01-01T00:00:00.000Z"
    commitHash := "abc123" }

/-- A concrete frontmatter parser for the discovery witness. -/
def c2Parse : String → Except String SkillMetadata := fun content =>
  if content = "name: writing-style" then
    .ok { name := "writing-style", description := "Style guide" }
  else .error "Missing frontmatter"

/-- One concrete search path holding one skill directory that carries a
source sidecar file on disk. -/
def c2Dirs : List (String × List SkillDirOnDisk) :=
  [("/root/skills",
    [{ dirName := "writing-style", skillMd := some "name: writing-style",
       hasScripts := false, hasReferences := true, hasAssets := false,
       sourceFile := some c2Sidecar }])]

/-- The skill value that discovery produces for the witness directory. -/
def c2Skill : InstalledSkill :=
  { metadata := { name := "writing-style", description := "Style guide" }
    location := "/root/skills/writing-style"
    hasScripts := false
    hasReferences := true
    hasAssets := false
    isValid := true }

/-- A remote fetch that would report a different commit, were it consulted. -/
def c2Remote : SkillSource → Option String := fun _ => some "def456"

/-- C2 witness: the discovery theorem applied to a directory whose sidecar
file is present on disk; the discovered skill still carries no source and
the startup check performs zero remote calls. -/
theorem discovery_source_always_none_witness :
    c2Skill.source = none ∧
    checkSkillUpdates c2Remote (discoverAllSkills c2Parse c2Dirs) =
      (discoverAllSkills c2Parse c2Dirs, 0) :=
  ⟨(discovery_source_always_none c2Parse c2Dirs).1 c2Skill (by decide),
   (discovery_source_always_none c2Parse c2Dirs).2.2.2 c2Remote⟩

/-- C4 (amended): in the update-all flow, untracked bundles get an explicit
message only when the request contains no trackable bundle at all; whenever
a batch report is produced, every reported row names a trackable bundle, so
bundles without a source record are omitted from the report rather than
reported individually. -/
theorem handleUpdate_untracked_reporting (env : UpdateEnv)
    (skills : List InstalledSkill) (fs : FS) :
    (skills.filter (fun s => s.source.isSome) = [] →
      handleUpdate env skills none fs = (.noTrackable noTrackableAllMsg, fs)) ∧
    (∀ u sk f fs1, handleUpdate env skills none fs = (.batch u sk f, fs1) →
      ∀ n, (n ∈ u.map UpdateResult.name ∨ n ∈ sk.map SkipResult.name ∨
            n ∈ f.map FailResult.name) →
        ∃ s ∈ skills, s.source.isSome ∧ s.metadata.name = n) := by
  constructor
  · intro hfilter
    unfold handleUpdate handleUpdateBatch
    simp [hfilter]
  · intro u sk f fs1 h n hn
    unfold handleUpdate handleUpdateBatch at h
    by_cases hemp : (skills.filter (fun s => s.source.isSome)).isEmpty
    · rw [if_pos hemp] at h
      exact absurd (congrArg Prod.fst h) (by simp)
    · rw [if_neg hemp] at h
      rcases hrun : runUpdates env fs (skills.filter (fun s => s.source.isSome))
        with ⟨⟨ru, rs, rf⟩, fs2⟩
      rw [hrun] at h
      have hu : ru = u ∧ rs = sk ∧ rf = f := by
        have := congrArg Prod.fst h
        simp only [Prod.fst] at this
        cases this
        exact ⟨rfl, rfl, rfl⟩
      obtain ⟨rfl, rfl, rfl⟩ := hu
      have := runUpdates_names env (skills.filter (fun s => s.source.isSome))
        fs n (by rw [hrun]; exact hn)
      rcases this with ⟨s, hsmem, hsn⟩
      rcases List.mem_filter.mp hsmem with ⟨hmem, hsome⟩
      exact ⟨s, hmem, by simpa using hsome, hsn⟩

/-- The source record of the tracked skill in the mixed-batch example. -/
def c4Src : SkillSource :=
  { marketplaceUrl := "https://github.com/anthropics/skills/tree/main/skills"
    skillPath := "auto-skill"
    installedAt := "2025-01-01T00:00:00.000Z"
    commitHash := "aaa111" }

/-- The trackable skill of the mixed-batch example. -/
def c4Tracked : InstalledSkill :=
  { metadata := { name := "auto-skill", description := "Installed via marketplace" }
    location := "/root/skills/auto-skill"
    hasScripts := false
    hasReferences := false
    hasAssets := false
    isValid := true
    source := some c4Src }

/-- The untracked skill of the mixed-batch example. -/
def c4Untracked : InstalledSkill :=
  { metadata := { name := "manual-skill", description := "Copied by hand" }
    location := "/root/skills/manual-skill"
    hasScripts := false
    hasReferences := false
    hasAssets := false
    isValid := true }

/-- An update environment whose remote fetch reports the stored commit, so
the tracked skill is up to date. -/
def c4Env : UpdateEnv :=
  { urlParse := fun _ => none
    remoteFetch := fun _ => some "aaa111"
    cloneResult := fun _ => .error "unused"
    moveFail := fun _ => none
    nowTag := 1
    installedAt := "2025-06-01T00:00:00.000Z" }

/-- An empty sibling filesystem for the mixed-batch example. -/
def c4Fs : FS := fun _ => none

/-- C4 counterexample: a batch containing a tracked and an untracked bundle
produces a report that mentions only the tracked bundle; the untracked
manual-skill appears in none of the three partitions and no untracked
message is returned, so it is silently omitted, contrary to the claim. -/
theorem untracked_omitted_in_mixed_batch :
    (handleUpdate c4Env [c4Tracked, c4Untracked] none c4Fs).1 =
      .batch [] [{ name := "auto-skill", reason := "Already up to date" }] [] := by
  decide

/-- C4 witness: the amended theorem applied to a request whose only bundle
is untracked; the handler answers with the explicit no-trackable message. -/
theorem handleUpdate_untracked_reporting_witness :
    handleUpdate c4Env [c4Untracked] none c4Fs =
      (.noTrackable noTrackableAllMsg, c4Fs) :=
  (handleUpdate_untracked_reporting c4Env [c4Untracked] c4Fs).1 (by decide)

/-- Source record of skill-a in the batch example (an update exists). -/
def c3SrcA : SkillSource :=
  { marketplaceUrl := "https://github.com/anthropics/skills/tree/main/skills"
    skillPath := "skill-a"
    installedAt := "2025-01-01T00:00:00.000Z"
    commitHash := "aaa111" }

/-- Source record of skill-b in the batch example (its remote fetch fails). -/
def c3SrcB : SkillSource :=
  { marketplaceUrl := "https://github.com/anthropics/skills/tree/main/skills"
    skillPath := "skill-b"
    installedAt := "2025-01-01T00:00:00.000Z"
    commitHash := "bbb111" }

/-- Source record of skill-c in the batch example (genuinely up to date). -/
def c3SrcC : SkillSource :=
  { marketplaceUrl := "https://github.com/anthropics/skills/tree/main/skills"
    skillPath := "skill-c"
    installedAt := "2025-01-01T00:00:00.000Z"
    commitHash := "ccc333" }

/-- A tracked installed skill for the batch example. -/
def c3Skill (name loc : String) (src : SkillSource) : InstalledSkill :=
  { metadata := { name := name, description := "batch example" }
    location := loc
    hasScripts := false
    hasReferences := false
    hasAssets := false
    isValid := true
    source := some src }

/-- The freshly checked-out bundle produced by the staging clone of
skill-a. -/
def c3NewBundle : Bundle :=
  { payload := "new tree", skillMd := some "name: skill-a", sourceRecord := none }

/-- An on-disk bundle for the batch example. -/
def c3OldBundle (src : SkillSource) : Bundle :=
  { payload := "old tree", skillMd := some "old", sourceRecord := some src }

/-- The batch-example environment: skill-a has a newer remote commit and a
succeeding clone, the remote revision fetch for skill-b throws (collapsed to
an absent result by getLatestCommit), and skill-c is unchanged remotely. -/
def c3Env : UpdateEnv :=
  { urlParse := fun _ => some exUrlObj
    remoteFetch := fun src =>
      if src.skillPath = "skill-a" then some "aa2222"
      else if src.skillPath = "skill-b" then none
      else some "ccc333"
    cloneResult := fun _ => .ok ("aa2222", c3NewBundle)
    moveFail := fun _ => none
    nowTag := 99
    installedAt := "2025-06-01T00:00:00.000Z" }

/-- The sibling filesystem of the batch example: the three bundles are
installed under one skills root. -/
def c3Fs : FS := fun q =>
  if q = "/root/skills/skill-a" then some (.bundle (c3OldBundle c3SrcA))
  else if q = "/root/skills/skill-b" then some (.bundle (c3OldBundle c3SrcB))
  else if q = "/root/skills/skill-c" then some (.bundle (c3OldBundle c3SrcC))
  else none

/-- C3: evaluated on three tracked bundles where skill-b's remote revision
fetch fails, the batch is not aborted (skill-a is still updated and skill-c
still reported), but the bundle whose fetch failed lands in the skipped
partition labelled up to date, and the failed partition stays empty: the
error field of the update-check result is never consulted, contradicting
the claim that such a bundle is placed in the failed partition. -/
theorem batch_fetch_failure_reported_up_to_date :
    (handleUpdate c3Env
      [c3Skill "skill-a" "/root/skills/skill-a" c3SrcA,
       c3Skill "skill-b" "/root/skills/skill-b" c3SrcB,
       c3Skill "skill-c" "/root/skills/skill-c" c3SrcC] none c3Fs).1 =
      .batch
        [{ name := "skill-a", previousCommit := "aaa111", newCommit := "aa2222" }]
        [{ name := "skill-b", reason := "Already up to date" },
         { name := "skill-c", reason := "Already up to date" }]
        [] := by
  decide

/-- C6: whenever the final move into the bundle location fails after the
backup rename has occurred (the clone succeeded, an update was detected and
the staging and backup names are fresh), updateSkill restores the pre-update
state exactly: it reports the failure and the filesystem afterwards equals
the filesystem before, so the bundle directory is byte-identical to its
pre-update content and no backup or staging sibling directories remain. -/
theorem updateSkill_rollback_restores_state
    (env : UpdateEnv) (fs : FS) (skill : InstalledSkill) (src : SkillSource)
    (parsed : GitHubUrlParts) (newCommit : String) (nb : Bundle)
    (node : Node) (msg : String)
    (hsrc : skill.source = some src)
    (hupd : (checkForUpdates (env.remoteFetch src) src).hasUpdate = true)
    (hurl : parseGitHubUrl (env.urlParse src.marketplaceUrl) = some parsed)
    (hclone : env.cloneResult skill = .ok (newCommit, nb))
    (hmove : env.moveFail skill = some msg)
    (hloc : fs skill.location = some node)
    (htemp : fs (tempDirName env.nowTag skill) = none)
    (hback : fs (backupDirName env.nowTag skill) = none)
    (hlt : skill.location ≠ tempDirName env.nowTag skill)
    (hlb : skill.location ≠ backupDirName env.nowTag skill) :
    updateSkill env fs skill = (.failure msg, fs) := by
  unfold updateSkill
  simp only [hsrc]
  rw [if_neg (by simp [hupd])]
  simp only [hurl, hclone]
  have h1 : fsSet fs (tempDirName env.nowTag skill)
      (Node.cloneArea (some nb)) skill.location = some node := by
    simp [fsSet, hlt, hloc]
  simp only [h1, hmove]
  have h2 : fsErase (fsSet (fsErase (fsSet fs (tempDirName env.nowTag skill)
      (Node.cloneArea (some nb))) skill.location)
      (backupDirName env.nowTag skill) node) skill.location
      (backupDirName env.nowTag skill) = some node := by
    simp [fsErase, fsSet, Ne.symm hlb]
  split
  · rename_i b heq
    rw [h2] at heq
    cases heq
    rw [Prod.mk.injEq]
    refine ⟨rfl, ?_⟩
    funext q
    simp only [fsErase, fsSet]
    by_cases hq1 : q = tempDirName env.nowTag skill
    · subst hq1
      simp [htemp]
    · by_cases hq2 : q = skill.location
      · subst hq2
        simp [hq1, hloc]
      · by_cases hq3 : q = backupDirName env.nowTag skill
        · subst hq3
          simp [hq1, hq2, hback]
        · simp [hq1, hq2, hq3]
  · rename_i heq
    rw [h2] at heq
    cases heq

/-- The rollback-witness environment: an update is available, the clone
succeeds, and the final rename into place fails with a cross-device error. -/
def c6Env : UpdateEnv :=
  { urlParse := fun _ => some exUrlObj
    remoteFetch := fun _ => some "aa2222"
    cloneResult := fun _ => .ok ("aa2222", c3NewBundle)
    moveFail := fun _ => some "EXDEV: cross-device link not permitted, rename"
    nowTag := 99
    installedAt := "2025-06-01T00:00:00.000Z" }

/-- The rollback-witness filesystem: only skill-a is installed. -/
def c6Fs : FS := fun q =>
  if q = "/root/skills/skill-a" then some (.bundle (c3OldBundle c3SrcA))
  else none

/-- C6 witness: the rollback theorem applied to a concrete failing final
move; the resulting state is exactly the pre-update filesystem. -/
theorem updateSkill_rollback_restores_state_witness :
    updateSkill c6Env c6Fs (c3Skill "skill-a" "/root/skills/skill-a" c3SrcA) =
      (.failure "EXDEV: cross-device link not permitted, rename", c6Fs) :=
  updateSkill_rollback_restores_state c6Env c6Fs
    (c3Skill "skill-a" "/root/skills/skill-a" c3SrcA) c3SrcA
    { owner := "anthropics", repo := "skills", branch := "main",
      path := "skills" }
    "aa2222" c3NewBundle (.bundle (c3OldBundle c3SrcA))
    "EXDEV: cross-device link not permitted, rename"
    rfl (by decide) (by decide) rfl rfl (by decide) (by decide) (by decide)
    (by decide) (by decide)

/-- C8: an install request whose target directory already exists fails
immediately with the already-exists error outcome and performs no
filesystem mutation at all: the returned state is the initial state, so the
existing target directory and its contents are unchanged. -/
theorem install_existing_target_unchanged (env : InstallEnv) (fs : FS)
    (skillName : String) (node : Node)
    (h : fs (env.installPath ++ "/" ++ skillName) = some node) :
    handleInstall env fs skillName =
      (.alreadyExists (env.installPath ++ "/" ++ skillName), fs) := by
  unfold handleInstall
  simp only [h]

/-- The preflight-witness environment; none of its collaborators should be
reached. -/
def c8Env : InstallEnv :=
  { allSkills := [exEntryA]
    urlParse := fun _ => some exUrlObj
    cloneResult := fun _ => .error "should not be reached"
    parseFrontmatter := fun _ => .error "should not be reached"
    installPath := "/root/skills"
    nowTag := 5 }

/-- The preflight-witness filesystem: pdf-helper is already installed. -/
def c8Fs : FS := fun q =>
  if q = "/root/skills/pdf-helper" then some (.bundle (c3OldBundle exSource))
  else none

/-- C8 witness: the preflight theorem applied to an install of pdf-helper
over a filesystem where that directory already exists. -/
theorem install_existing_target_unchanged_witness :
    handleInstall c8Env c8Fs "pdf-helper" =
      (.alreadyExists "/root/skills/pdf-helper", c8Fs) :=
  install_existing_target_unchanged c8Env c8Fs "pdf-helper"
    (.bundle (c3OldBundle exSource)) (by decide)

/-- The bundle checked out by the successful install of the example. -/
def c1Bundle : Bundle :=
  { payload := "checked-out tree"
    skillMd := some "name: pdf-helper"
    sourceRecord := none }

/-- The install-example environment: the catalog lists pdf-helper, the URL
resolves, the clone succeeds and validation passes. -/
def c1Env : InstallEnv :=
  { allSkills := [exEntryA]
    urlParse := fun _ => some exUrlObj
    cloneResult := fun _ => .ok c1Bundle
    parseFrontmatter := fun _ =>
      .ok { name := "pdf-helper", description := "Extract text from PDFs" }
    installPath := "/root/skills"
    nowTag := 7 }

/-- An empty install root for the install example. -/
def c1Fs : FS := fun _ => none

/-- C1: evaluated on a fully successful install of pdf-helper, handleInstall
reports success but the bundle at the final location is exactly the cloned
tree with no source record: no sidecar is ever written on the install path
(saveSource is only called by updateSkill), contradicting the claim that a
fresh Source Record exists after every successful install. -/
theorem install_leaves_no_source_record :
    (handleInstall c1Env c1Fs "pdf-helper").1 =
      .installed "pdf-helper" "Extract text from PDFs"
        "/root/skills/pdf-helper" ∧
    (handleInstall c1Env c1Fs "pdf-helper").2 "/root/skills/pdf-helper" =
      some (.bundle c1Bundle) ∧
    c1Bundle.sourceRecord = none := by
  decide
